import Mathlib

/-!
Verification of the painting scheduler and execution engine of
`pixel_painter.py` (a 32x32 pixel-art automation tool).

The Python source is shallowly embedded below.  Colors are modelled as
their parsed RGB triples: the program stores colors canonically as
lowercase 6-hex-digit strings, and every pair of hex digits parses with
`int(_, 16)` to a value in `[0, 255]`, so a canonical color string is in
bijection with a triple of `Fin 256` values.

Float arithmetic is treated per quantity.  The luminance sort key is
computed by the program in IEEE binary64 doubles, and the rounding is
observable (distinct colors with equal exact luminance can have
distinct double keys), so `calculate_luminance` models the double
computation bit-exactly, in fixed point: every value arising in
`0.299*r + 0.587*g + 0.114*b` over `r, g, b ∈ [0, 255]` is a multiple
of `2^-56`, and the key is carried as the exact value times `2^56`
(an order- and equality-preserving encoding).  The color distance
comparison `math.sqrt(d2) <= tolerance` with integer `tolerance` is
modelled by the exact test `d2 <= tolerance^2 && 0 <= tolerance`,
which agrees with the float comparison (proved as `withinTolerance_iff`
against the real-valued distance; integer gaps around `tolerance^2`
dwarf the rounding error of one square root).  Tile geometry uses
divisions by 32 and halves of screen-scale integers, which binary64
represents exactly, so it is modelled over the rationals.
-/

namespace PixelPainter

/-- A 24-bit RGB color: the parsed triple of a canonical 6-hex-digit
color string (`int(hex[0:2], 16)` etc., each in `[0, 255]`). -/
structure Color where
  r : Fin 256
  g : Fin 256
  b : Fin 256
deriving DecidableEq, Repr

/-- Floor of the base-2 logarithm of a positive natural, by bounded
structural search: the largest `e < 64` with `2^e ≤ n` (0 for `n = 0`).
Every scaled value in the luminance computation is below `2^64`. -/
def natLog2 (n : ℕ) : ℕ :=
  (List.range 64).foldl (fun acc e => if 2 ^ e ≤ n then e else acc) 0

/-- Round `num / den` to the nearest integer, ties to even. -/
def divRoundHalfEven (num den : ℕ) : ℕ :=
  let q := num / den
  let r := num % den
  if 2 * r < den then q
  else if den < 2 * r then q + 1
  else if q % 2 = 0 then q else q + 1

/-- IEEE binary64 round-to-nearest-even in fixed point: `v` is a
nonnegative value scaled by `2^56`; the result is the scaled value of
the nearest double.  Faithful whenever the value is zero or at least
`2^-4` (scaled, `2^52`), as every nonzero quantity in the luminance
computation is; values with binary exponent at least `-4` sit on the
`2^-56` grid both before and after rounding. -/
def roundScaled (v : ℕ) : ℕ :=
  let e := natLog2 v
  if e ≤ 52 then v
  else
    let u := 2 ^ (e - 52)
    divRoundHalfEven v u * u

/-- The binary64 double nearest to the decimal fraction `num / den`,
scaled by `2^56` (how Python parses a float literal such as `0.299`).
Faithful for values in `[2^-4, 2^8)`, which covers the three luminance
coefficients. -/
def scaledDoubleOfDecimal (num den : ℕ) : ℕ :=
  let approx := num * 2 ^ 56 / den
  let e := natLog2 approx
  if e ≤ 52 then divRoundHalfEven (num * 2 ^ 56) den
  else
    let u := 2 ^ (e - 52)
    divRoundHalfEven (num * 2 ^ 56) (den * u) * u

/-- The double value of the literal `0.299`, scaled by `2^56`. -/
def c299s : ℕ := scaledDoubleOfDecimal 299 1000

/-- The double value of the literal `0.587`, scaled by `2^56`. -/
def c587s : ℕ := scaledDoubleOfDecimal 587 1000

/-- The double value of the literal `0.114`, scaled by `2^56`. -/
def c114s : ℕ := scaledDoubleOfDecimal 114 1000

/-- `calculate_luminance` (pixel_painter.py lines 432-442):
`0.299 * r + 0.587 * g + 0.114 * b` evaluated left-associated in IEEE
binary64 arithmetic, bit-exactly: each product and each partial sum is
correctly rounded.  The result is the double's exact value scaled by
`2^56`; the scaling is injective and order-preserving, so sort-key
comparisons and equalities agree with the program's. -/
def calculate_luminance (c : Color) : ℕ :=
  roundScaled (roundScaled (roundScaled (c299s * (c.r : ℕ)) + roundScaled (c587s * (c.g : ℕ)))
    + roundScaled (c114s * (c.b : ℕ)))

/-- Modelled from the spec's Color Model: the exact (infinitely
precise) luminance `0.299*R + 0.587*G + 0.114*B`, the quantity the
spec's stability tie-break speaks about. -/
def luminance_spec (c : Color) : ℚ :=
  (299 / 1000) * (c.r : ℚ) + (587 / 1000) * (c.g : ℚ) + (114 / 1000) * (c.b : ℚ)

/-- The integer squared RGB distance `(r2-r1)^2 + (g2-g1)^2 + (b2-b1)^2`
appearing under the square root in `calculate_color_distance`
(pixel_painter.py line 457). -/
def distSq (c1 c2 : Color) : ℤ :=
  ((c2.r : ℤ) - (c1.r : ℤ)) ^ 2 + ((c2.g : ℤ) - (c1.g : ℤ)) ^ 2
    + ((c2.b : ℤ) - (c1.b : ℤ)) ^ 2

/-- `calculate_color_distance` (pixel_painter.py lines 444-459):
`math.sqrt((r2-r1)**2 + (g2-g1)**2 + (b2-b1)**2)`, the float square
root modelled as the real square root. -/
noncomputable def calculate_color_distance (c1 c2 : Color) : ℝ :=
  Real.sqrt (((c2.r : ℝ) - (c1.r : ℝ)) ^ 2 + ((c2.g : ℝ) - (c1.g : ℝ)) ^ 2
    + ((c2.b : ℝ) - (c1.b : ℝ)) ^ 2)

/-- The executable form of the tolerance test `distance <= tolerance`
from the painting loop (pixel_painter.py line 542): for an integer
tolerance and the nonnegative real distance `sqrt d2`, the comparison
holds exactly when `0 <= tolerance` and `d2 <= tolerance^2`. -/
def withinTolerance (prev c : Color) (tolerance : ℤ) : Bool :=
  decide (0 ≤ tolerance) && decide (distSq prev c ≤ tolerance ^ 2)

/-- The validated configuration produced by `get_coords`
(pixel_painter.py lines 378-396): eight integer screen coordinates, an
integer mouse speed, a float action delay (exact rational model) and an
integer color tolerance. -/
structure Coords where
  start_x : ℤ
  start_y : ℤ
  end_x : ℤ
  end_y : ℤ
  button_x : ℤ
  button_y : ℤ
  hex_x : ℤ
  hex_y : ℤ
  speed : ℤ
  delay : ℚ
  tolerance : ℤ
deriving DecidableEq, Repr

/-- Python `int(...)` applied to a float value truncates toward zero. -/
def truncQ (q : ℚ) : ℤ :=
  if 0 ≤ q then ⌊q⌋ else ⌈q⌉

/-- `get_tile_position` (pixel_painter.py lines 398-402): the center of
tile `(x, y)`, `int(start + index * tileSize + tileSize / 2)` per axis,
with the float arithmetic modelled exactly over the rationals. -/
def get_tile_position (x y : ℕ) (coords : Coords) (tile_width tile_height : ℚ) : ℤ × ℤ :=
  (truncQ ((coords.start_x : ℚ) + (x : ℚ) * tile_width + tile_width / 2),
   truncQ ((coords.start_y : ℚ) + (y : ℚ) * tile_height + tile_height / 2))

/-- The 32x32 grid `pixel_colors` built by `upload_image`
(pixel_painter.py lines 322-329), indexed `[y][x]`. -/
def Grid : Type := Fin 32 → Fin 32 → Color

/-- One entry of the `pixels` list built by `painting_loop`
(pixel_painter.py line 506): the tuple
`(luminance, hex_color, x, y, tile_x, tile_y)`.  The luminance is the
program's binary64 sort key in the `2^56` fixed-point encoding of
`calculate_luminance`. -/
structure Pixel where
  luminance : ℕ
  hex_color : Color
  x : ℕ
  y : ℕ
  tile_x : ℤ
  tile_y : ℤ
deriving DecidableEq, Repr

/-- The `pixels` list as built by `painting_loop` (pixel_painter.py
lines 492-506): row-major traversal, `y` outer and `x` inner, with
`tile_width = (end_x - start_x) / 32` and likewise for the height. -/
def buildPixels (grid : Grid) (coords : Coords) : List Pixel :=
  (List.finRange 32).flatMap fun y =>
    (List.finRange 32).map fun x =>
      let tile_width : ℚ := ((coords.end_x : ℚ) - (coords.start_x : ℚ)) / 32
      let tile_height : ℚ := ((coords.end_y : ℚ) - (coords.start_y : ℚ)) / 32
      let hex_color := grid y x
      let tp := get_tile_position (x : ℕ) (y : ℕ) coords tile_width tile_height
      { luminance := calculate_luminance hex_color
        hex_color := hex_color
        x := (x : ℕ)
        y := (y : ℕ)
        tile_x := tp.1
        tile_y := tp.2 }

/-- The comparison used by `pixels.sort(key=lambda p: p[0])`:
ascending luminance. -/
def pixelLE (p q : Pixel) : Bool :=
  decide (p.luminance ≤ q.luminance)

/-- `pixels.sort(key=lambda p: p[0])` (pixel_painter.py line 509):
Python's `list.sort` is a stable sort, modelled by the stable
`List.mergeSort`. -/
def sortPixels (ps : List Pixel) : List Pixel :=
  ps.mergeSort pixelLE

/-- The color-change decision of the painting loop (pixel_painter.py
lines 538-545): `needs_color_change` is `True` unless a previous color
exists whose distance to the cell's color is within tolerance. -/
def needsColorChange (previous_color : Option Color) (hex_color : Color)
    (tolerance : ℤ) : Bool :=
  match previous_color with
  | none => true
  | some pc => ! withinTolerance pc hex_color tolerance

/-- One iteration of the painting loop, recording the cell processed,
whether a color selection was performed, and the `previous_color`
state before and after (pixel_painter.py lines 526-590:
`previous_color` is updated only inside the `needs_color_change`
branch, line 579). -/
structure Step where
  pixel : Pixel
  selected : Bool
  prevBefore : Option Color
  prevAfter : Option Color
deriving DecidableEq, Repr

/-- The per-cell trace of the painting loop over a pixel list,
threading `previous_color` exactly as pixel_painter.py lines 523-590. -/
def paintSteps (tolerance : ℤ) : Option Color → List Pixel → List Step
  | _, [] => []
  | previous_color, p :: rest =>
    let needs := needsColorChange previous_color p.hex_color tolerance
    let after := if needs then some p.hex_color else previous_color
    { pixel := p, selected := needs, prevBefore := previous_color,
      prevAfter := after } :: paintSteps tolerance after rest

/-- The `previous_color` value after the loop has processed a pixel
list, threading the update rule of pixel_painter.py line 579. -/
def threadPrev (tolerance : ℤ) : Option Color → List Pixel → Option Color
  | prev, [] => prev
  | prev, p :: rest =>
    threadPrev tolerance
      (if needsColorChange prev p.hex_color tolerance then some p.hex_color else prev)
      rest

/-- A scheduler action: the color-picker interaction block
(pixel_painter.py lines 547-579) or the tile-placement click
(lines 583-590). -/
inductive PaintAction where
  | SelectColor (color : Color)
  | PlaceTile (x y : ℕ) (tile_x tile_y : ℤ)
deriving DecidableEq, Repr

/-- The actions emitted for one cell: a `SelectColor` when the loop
entered the color-change branch, always followed by the `PlaceTile`. -/
def stepActions (s : Step) : List PaintAction :=
  (if s.selected then [PaintAction.SelectColor s.pixel.hex_color] else [])
    ++ [PaintAction.PlaceTile s.pixel.x s.pixel.y s.pixel.tile_x s.pixel.tile_y]

/-- The step trace of a full run of `painting_loop` on a grid: sort the
row-major pixel list by luminance and walk it with `previous_color`
starting at `None`. -/
def scheduleSteps (grid : Grid) (coords : Coords) : List Step :=
  paintSteps coords.tolerance none (sortPixels (buildPixels grid coords))

/-- The ordered action sequence of a full run of `painting_loop`. -/
def schedule (grid : Grid) (coords : Coords) : List PaintAction :=
  (scheduleSteps grid coords).flatMap stepActions

def isSelect : PaintAction → Bool
  | PaintAction.SelectColor _ => true
  | PaintAction.PlaceTile _ _ _ _ => false

def isPlace : PaintAction → Bool
  | PaintAction.SelectColor _ => false
  | PaintAction.PlaceTile _ _ _ _ => true

/-- Number of `SelectColor` actions (the `color_changes` counter of
pixel_painter.py line 578). -/
def selectCount (as : List PaintAction) : ℕ :=
  (as.filter isSelect).length

/-- Number of `PlaceTile` actions (the `painted_pixels` counter of
pixel_painter.py line 590). -/
def placeCount (as : List PaintAction) : ℕ :=
  (as.filter isPlace).length

/-- The cell indices of the `PlaceTile` actions, in order. -/
def placeCells (as : List PaintAction) : List (ℕ × ℕ) :=
  as.filterMap fun a =>
    match a with
    | PaintAction.PlaceTile x y _ _ => some (x, y)
    | PaintAction.SelectColor _ => none

/-- All 1024 cells in row-major (`y` outer, `x` inner) order, matching
the construction order of `pixel_colors` and of the `pixels` list. -/
def allCells : List (ℕ × ℕ) :=
  (List.range 32).flatMap fun y =>
    (List.range 32).map fun x => (x, y)

/-- Modelled from the spec wording of the Paint Scheduler walk: emit a
selection exactly when `lastColor` is none or the (real-valued) RGB
distance from `lastColor` to the cell's color is strictly greater than
the tolerance. -/
noncomputable def specSelectNeeded (lastColor : Option Color) (hex_color : Color)
    (tolerance : ℤ) : Bool :=
  match lastColor with
  | none => true
  | some lc => if (tolerance : ℝ) < calculate_color_distance lc hex_color
      then true else false

/-- Modelled from the spec wording of the Paint Scheduler walk: the
step trace with the real-distance selection rule of
`specSelectNeeded`. -/
noncomputable def specPaintSteps (tolerance : ℤ) : Option Color → List Pixel → List Step
  | _, [] => []
  | lastColor, p :: rest =>
    let needs := specSelectNeeded lastColor p.hex_color tolerance
    let after := if needs then some p.hex_color else lastColor
    { pixel := p, selected := needs, prevBefore := lastColor,
      prevAfter := after } :: specPaintSteps tolerance after rest

/-- Modelled from the spec wording of Tile Geometry: tile width
`(end_x - start_x) / 32`, tile height `(end_y - start_y) / 32`, center
`start + index * tileSize + tileSize / 2`, truncated to integer
pixels. -/
def tilePosition_spec (x y : ℕ) (coords : Coords) : ℤ × ℤ :=
  let tileW : ℚ := ((coords.end_x : ℚ) - (coords.start_x : ℚ)) / 32
  let tileH : ℚ := ((coords.end_y : ℚ) - (coords.start_y : ℚ)) / 32
  (truncQ ((coords.start_x : ℚ) + (x : ℚ) * tileW + tileW / 2),
   truncQ ((coords.start_y : ℚ) + (y : ℚ) * tileH + tileH / 2))

def isDigitChar (c : Char) : Bool :=
  decide ('0' ≤ c) && decide (c ≤ '9')

def digitVal (c : Char) : ℕ :=
  c.toNat - '0'.toNat

def digitsToNat (cs : List Char) : ℕ :=
  cs.foldl (fun acc c => 10 * acc + digitVal c) 0

/-- Python `int(s)` on the literal forms the configuration fields can
hold: an optional sign followed by one or more decimal digits; any
other character (in particular a decimal point, as in `"441.67"`)
raises `ValueError`, modelled as `none`.  (Surrounding whitespace and
underscore separators, which Python also accepts, are not modelled;
no theorem below evaluates the parser on such inputs.) -/
def python_int (s : String) : Option ℤ :=
  match s.toList with
  | [] => none
  | '-' :: rest =>
    if rest ≠ [] ∧ rest.all isDigitChar then some (-(digitsToNat rest : ℤ)) else none
  | '+' :: rest =>
    if rest ≠ [] ∧ rest.all isDigitChar then some ((digitsToNat rest : ℤ)) else none
  | cs =>
    if cs.all isDigitChar then some ((digitsToNat cs : ℤ)) else none

/-- Unsigned part of Python `float(s)` on plain decimal literals:
digits with an optional fractional part (`"0.08"`, `"30"`, `"1."`,
`".5"`). -/
def python_float_core (cs : List Char) : Option ℚ :=
  if '.' ∈ cs then
    match cs.dropWhile (fun c => c ≠ '.') with
    | '.' :: fracPart =>
      let intPart := cs.takeWhile (fun c => c ≠ '.')
      if (intPart ≠ [] ∨ fracPart ≠ []) ∧ intPart.all isDigitChar
          ∧ fracPart.all isDigitChar then
        some ((digitsToNat intPart : ℚ)
          + (digitsToNat fracPart : ℚ) / (10 ^ fracPart.length : ℚ))
      else none
    | _ => none
  else
    if cs ≠ [] ∧ cs.all isDigitChar then some ((digitsToNat cs : ℚ)) else none

/-- Python `float(s)` on plain decimal literals with an optional sign,
the float value modelled as the exact decimal rational. -/
def python_float (s : String) : Option ℚ :=
  match s.toList with
  | '-' :: rest => (python_float_core rest).map (fun q => -q)
  | '+' :: rest => python_float_core rest
  | cs => python_float_core cs

/-- The raw text of the eleven configuration entry fields read by
`get_coords`. -/
structure CoordInputs where
  start_x : String
  start_y : String
  end_x : String
  end_y : String
  button_x : String
  button_y : String
  hex_x : String
  hex_y : String
  mouse_speed : String
  action_delay : String
  color_tolerance : String

/-- `get_coords` (pixel_painter.py lines 378-396): parse the eleven
fields in source order (`int` for all but the delay, `float` for the
delay); the first `ValueError` aborts the `try` block and is surfaced
as an error dialog, modelled as `none`.  No range check of any kind is
performed. -/
def get_coords (inputs : CoordInputs) : Option Coords :=
  (python_int inputs.start_x).bind fun a1 =>
  (python_int inputs.start_y).bind fun a2 =>
  (python_int inputs.end_x).bind fun a3 =>
  (python_int inputs.end_y).bind fun a4 =>
  (python_int inputs.button_x).bind fun a5 =>
  (python_int inputs.button_y).bind fun a6 =>
  (python_int inputs.hex_x).bind fun a7 =>
  (python_int inputs.hex_y).bind fun a8 =>
  (python_int inputs.mouse_speed).bind fun a9 =>
  (python_float inputs.action_delay).bind fun a10 =>
  (python_int inputs.color_tolerance).map fun a11 =>
  { start_x := a1, start_y := a2, end_x := a3, end_y := a4,
    button_x := a5, button_y := a6, hex_x := a7, hex_y := a8,
    speed := a9, delay := a10, tolerance := a11 }

/-- `start_painting` (pixel_painter.py lines 461-481) launches the
worker thread exactly when an image is loaded (`pixel_colors` nonempty)
and `get_coords` succeeded. -/
def start_painting_launches (imageLoaded : Bool) (inputs : CoordInputs) : Bool :=
  imageLoaded && (get_coords inputs).isSome

/-- An observable event of the execution engine: the color-picker
interaction block for a cell, the tile-placement click, the
"Painting aborted!" status line (pixel_painter.py line 528), the
completion status lines (lines 596-598), or the caught-exception log
line (line 601). -/
inductive RunEvent where
  | selectActions (color : Color)
  | placeAction (x y : ℕ)
  | logAborted
  | logComplete
  | logError (msg : String)
deriving DecidableEq, Repr

/-- The events emitted for one cell of a normally-executing iteration. -/
def stepEvents (s : Step) : List RunEvent :=
  (if s.selected then [RunEvent.selectActions s.pixel.hex_color] else [])
    ++ [RunEvent.placeAction s.pixel.x s.pixel.y]

/-- The values of the cooperative flags, as observed by the worker at
its check points: `abortAtTop i` is the value of `should_abort` read at
the top of iteration `i` (pixel_painter.py line 527), and
`abortInPause i` says whether `should_abort` was observed set inside
the pause-wait loop of iteration `i` (lines 532-536). -/
structure FlagTrace where
  abortAtTop : ℕ → Bool
  abortInPause : ℕ → Bool

/-- The outcome of the worker loop: the events it emitted and the final
value of the `painted_pixels` counter. -/
structure RunResult where
  events : List RunEvent
  painted : ℕ
deriving DecidableEq, Repr

/-- The per-pixel loop of `painting_loop` (pixel_painter.py lines
523-598) under a trace of flag observations.  The top-of-iteration
abort check logs "Painting aborted!" and returns; an abort observed
inside the pause-wait loop returns without that log (lines 534-536);
otherwise the iteration runs the color-change decision, places the
tile, and increments `painted_pixels`.  An exhausted list logs
completion. -/
def runFrom (tolerance : ℤ) (flags : FlagTrace) :
    Option Color → ℕ → ℕ → List Pixel → RunResult
  | _, _, painted, [] => { events := [RunEvent.logComplete], painted := painted }
  | previous_color, idx, painted, p :: rest =>
    if flags.abortAtTop idx then
      { events := [RunEvent.logAborted], painted := painted }
    else if flags.abortInPause idx then
      { events := [], painted := painted }
    else
      let needs := needsColorChange previous_color p.hex_color tolerance
      let after := if needs then some p.hex_color else previous_color
      let tail := runFrom tolerance flags after (idx + 1) (painted + 1) rest
      { events := (if needs then [RunEvent.selectActions p.hex_color] else [])
          ++ RunEvent.placeAction p.x p.y :: tail.events
        painted := tail.painted }

/-- A full worker run on a grid under a trace of flag observations. -/
def run (grid : Grid) (coords : Coords) (flags : FlagTrace) : RunResult :=
  runFrom coords.tolerance flags none 0 0 (sortPixels (buildPixels grid coords))

/-- The slice of UI state reset by `finish_painting`
(pixel_painter.py lines 621-626). -/
structure UiState where
  is_painting : Bool
  start_enabled : Bool
  pause_enabled : Bool
  abort_enabled : Bool
deriving DecidableEq, Repr

/-- The UI state after `finish_painting`: not painting, start button
enabled, pause and abort disabled. -/
def finish_painting_ui : UiState :=
  { is_painting := false, start_enabled := true,
    pause_enabled := false, abort_enabled := false }

/-- The `try/except/finally` wrapper of `painting_loop`
(pixel_painter.py lines 485-603): `bodyEvents` are the events the loop
body emitted and `bodyErr` is the exception that terminated it, if any.
The `except` clause catches every exception and logs it; the `finally`
clause always runs `finish_painting`.  The third component is the
exception propagating out of `painting_loop` (always `none`: nothing
is re-raised). -/
def painting_loop_guarded (bodyEvents : List RunEvent) (bodyErr : Option String) :
    List RunEvent × UiState × Option String :=
  match bodyErr with
  | none => (bodyEvents, finish_painting_ui, none)
  | some e => (bodyEvents ++ [RunEvent.logError e], finish_painting_ui, none)

/-- A constant all-black grid (every cell the same color). -/
def grid0 : Grid := fun _ _ => { r := 0, g := 0, b := 0 }

/-- Concrete configuration matching the form defaults of
pixel_painter.py (delay 0.08 = 2/25, tolerance 30). -/
def coords0 : Coords :=
  { start_x := 100, start_y := 100, end_x := 420, end_y := 420,
    button_x := 50, button_y := 500, hex_x := 150, hex_y := 500,
    speed := 10, delay := 2 / 25, tolerance := 30 }

/-- `coords0` with tolerance 442, the least integer at least the
maximum possible RGB distance `255 * sqrt 3 = 441.67...`. -/
def coords442 : Coords :=
  { coords0 with tolerance := 442 }

/-- `coords0` with a zero-width span (`end_x = start_x`). -/
def coordsDeg : Coords :=
  { coords0 with end_x := 100 }

/-- `coords0` with a reversed horizontal span (`end_x < start_x`). -/
def coordsRev : Coords :=
  { coords0 with end_x := 50 }

/-- Flag trace: abort first observed at the top-of-loop check of
iteration 10. -/
def flags10 : FlagTrace :=
  { abortAtTop := fun i => decide (i = 10), abortInPause := fun _ => false }

/-- Flag trace: abort observed inside the pause-wait loop of the very
first iteration (pause requested immediately, then abort). -/
def flagsPause : FlagTrace :=
  { abortAtTop := fun _ => false, abortInPause := fun _ => true }

/-- Configuration field texts with the form defaults but tolerance
"441.67" (the maximum possible RGB distance as the spec quotes it). -/
def inputs441 : CoordInputs :=
  { start_x := "100", start_y := "100", end_x := "420", end_y := "420",
    button_x := "50", button_y := "500", hex_x := "150", hex_y := "500",
    mouse_speed := "10", action_delay := "0.08", color_tolerance := "441.67" }

/-- Configuration field texts that are all numeric but out of the
spec's claimed ranges: speed 0 (below [1,100]), delay -1 (negative),
tolerance -5 (negative). -/
def inputsBad : CoordInputs :=
  { start_x := "100", start_y := "100", end_x := "420", end_y := "420",
    button_x := "50", button_y := "500", hex_x := "150", hex_y := "500",
    mouse_speed := "0", action_delay := "-1", color_tolerance := "-5" }

/-- The configuration `get_coords` produces from `inputsBad`. -/
def coordsBadParsed : Coords :=
  { start_x := 100, start_y := 100, end_x := 420, end_y := 420,
    button_x := 50, button_y := 500, hex_x := 150, hex_y := 500,
    speed := 0, delay := -1, tolerance := -5 }

/-- A minimal concrete pixel for witness instantiations. -/
def pixel0 : Pixel :=
  { luminance := 0, hex_color := { r := 0, g := 0, b := 0 },
    x := 0, y := 0, tile_x := 0, tile_y := 0 }

/-- Color (57, 0, 144): exact luminance 33.459, the same as `cB`. -/
def cA : Color := { r := 57, g := 0, b := 144 }

/-- Color (0, 57, 0): exact luminance 33.459, the same as `cA`. -/
def cB : Color := { r := 0, g := 57, b := 0 }

/-- The pixel the loop builds for color `cA` at cell `(x, y) = (0, 0)`
under `coords0` (tile width 10, tile center `(105, 105)`). -/
def pixelA : Pixel :=
  { luminance := calculate_luminance cA, hex_color := cA,
    x := 0, y := 0, tile_x := 105, tile_y := 105 }

/-- The pixel the loop builds for color `cB` at cell `(x, y) = (1, 0)`
under `coords0` (tile width 10, tile center `(115, 105)`). -/
def pixelB : Pixel :=
  { luminance := calculate_luminance cB, hex_color := cB,
    x := 1, y := 0, tile_x := 115, tile_y := 105 }

/-- The step the painting loop produces for `pixel0` as first cell. -/
def step0 : Step :=
  { pixel := pixel0, selected := true, prevBefore := none,
    prevAfter := some pixel0.hex_color }

theorem distSq_nonneg (c1 c2 : Color) : 0 ≤ distSq c1 c2 := by
  unfold distSq
  positivity

theorem distSq_self (c : Color) : distSq c c = 0 := by
  unfold distSq
  ring

theorem calculate_color_distance_eq_sqrt_distSq (c1 c2 : Color) :
    calculate_color_distance c1 c2 = Real.sqrt ((distSq c1 c2 : ℤ) : ℝ) := by
  unfold calculate_color_distance distSq
  push_cast
  ring_nf

/-- Bridge between the executable tolerance test and the float
comparison `math.sqrt(d2) <= tolerance` of the source, idealized over
the reals (exact for the integer quantities involved). -/
theorem withinTolerance_iff (prev c : Color) (tolerance : ℤ) :
    withinTolerance prev c tolerance = true ↔
      calculate_color_distance prev c ≤ (tolerance : ℝ) := by
  rw [calculate_color_distance_eq_sqrt_distSq]
  unfold withinTolerance
  simp only [Bool.and_eq_true, decide_eq_true_eq]
  constructor
  · rintro ⟨htol, hle⟩
    have hcast : ((distSq prev c : ℤ) : ℝ) ≤ ((tolerance ^ 2 : ℤ) : ℝ) := by
      exact_mod_cast hle
    have h2 : ((tolerance ^ 2 : ℤ) : ℝ) = ((tolerance : ℝ)) ^ 2 := by push_cast; ring
    calc Real.sqrt ((distSq prev c : ℤ) : ℝ)
        ≤ Real.sqrt (((tolerance : ℝ)) ^ 2) := Real.sqrt_le_sqrt (h2 ▸ hcast)
      _ = (tolerance : ℝ) := Real.sqrt_sq (by exact_mod_cast htol)
  · intro h
    have hs : (0 : ℝ) ≤ ((distSq prev c : ℤ) : ℝ) := by
      exact_mod_cast distSq_nonneg prev c
    have htol : (0 : ℝ) ≤ (tolerance : ℝ) := le_trans (Real.sqrt_nonneg _) h
    refine ⟨by exact_mod_cast htol, ?_⟩
    have hsq : ((distSq prev c : ℤ) : ℝ) ≤ ((tolerance : ℝ)) ^ 2 := by
      calc ((distSq prev c : ℤ) : ℝ)
          = Real.sqrt ((distSq prev c : ℤ) : ℝ) ^ 2 := (Real.sq_sqrt hs).symm
        _ ≤ ((tolerance : ℝ)) ^ 2 := by
            exact pow_le_pow_left₀ (Real.sqrt_nonneg _) h 2
    exact_mod_cast hsq

theorem calculate_color_distance_self (c : Color) :
    calculate_color_distance c c = 0 := by
  rw [calculate_color_distance_eq_sqrt_distSq, distSq_self]
  simp

theorem needsColorChange_eq_spec (prev : Option Color) (c : Color) (tolerance : ℤ) :
    needsColorChange prev c tolerance = specSelectNeeded prev c tolerance := by
  cases prev with
  | none => rfl
  | some lc =>
    by_cases h : calculate_color_distance lc c ≤ (tolerance : ℝ)
    · have hw : withinTolerance lc c tolerance = true := (withinTolerance_iff lc c tolerance).mpr h
      simp [needsColorChange, specSelectNeeded, hw, not_lt.mpr h]
    · have hw : withinTolerance lc c tolerance = false := by
        cases hb : withinTolerance lc c tolerance with
        | false => rfl
        | true => exact absurd ((withinTolerance_iff lc c tolerance).mp hb) h
      simp [needsColorChange, specSelectNeeded, hw, lt_of_not_le h]

theorem paintSteps_eq_spec (tolerance : ℤ) :
    ∀ (ps : List Pixel) (prev : Option Color),
      paintSteps tolerance prev ps = specPaintSteps tolerance prev ps := by
  intro ps
  induction ps with
  | nil => intro prev; rfl
  | cons p rest ih =>
    intro prev
    simp only [paintSteps, specPaintSteps, needsColorChange_eq_spec prev p.hex_color tolerance]
    exact congrArg _ (ih _)

/-- C1: for every grid and tolerance the scheduler walks the
luminance-sorted sequence with `previous_color` starting at `None` and
selects a color before placing a cell exactly when the last color is
none or the real RGB distance from it to the cell's color exceeds the
tolerance; a distance exactly equal to the tolerance reuses the last
color and performs no selection. -/
theorem select_decision_matches_spec :
    (∀ (grid : Grid) (coords : Coords),
        scheduleSteps grid coords =
          specPaintSteps coords.tolerance none (sortPixels (buildPixels grid coords))) ∧
    (∀ (tolerance : ℤ) (prev : Option Color) (ps : List Pixel),
        paintSteps tolerance prev ps = specPaintSteps tolerance prev ps) ∧
    (∀ (lc c : Color) (tolerance : ℤ),
        calculate_color_distance lc c = (tolerance : ℝ) →
          needsColorChange (some lc) c tolerance = false) := by
  refine ⟨fun grid coords => paintSteps_eq_spec _ _ _,
    fun tolerance prev ps => paintSteps_eq_spec tolerance ps prev,
    fun lc c tolerance h => ?_⟩
  have hw : withinTolerance lc c tolerance = true :=
    (withinTolerance_iff lc c tolerance).mpr (le_of_eq h)
  simp [needsColorChange, hw]

/-- Witness for C1: the black-to-(3,4,0) distance is exactly 5, and at
tolerance 5 the boundary case performs no color change. -/
theorem select_decision_matches_spec_witness :
    calculate_color_distance { r := 0, g := 0, b := 0 } { r := 3, g := 4, b := 0 }
        = ((5 : ℤ) : ℝ) ∧
      needsColorChange (some { r := 0, g := 0, b := 0 }) { r := 3, g := 4, b := 0 } 5
        = false := by
  have h : calculate_color_distance { r := 0, g := 0, b := 0 } { r := 3, g := 4, b := 0 }
      = ((5 : ℤ) : ℝ) := by
    rw [calculate_color_distance_eq_sqrt_distSq]
    have h25 : distSq { r := 0, g := 0, b := 0 } { r := 3, g := 4, b := 0 } = 25 := by decide
    rw [h25]
    rw [show (((25 : ℤ) : ℝ)) = ((5 : ℝ)) ^ 2 by norm_num]
    rw [Real.sqrt_sq (by norm_num)]
    norm_num
  exact ⟨h, select_decision_matches_spec.2.2 _ _ 5 h⟩

/-- C8: the color distance is symmetric, vanishes exactly on equal RGB
triples, and equals the Euclidean distance in RGB space. -/
theorem color_distance_metric :
    ∀ a b : Color,
      calculate_color_distance a b = calculate_color_distance b a ∧
      (calculate_color_distance a b = 0 ↔ a = b) ∧
      calculate_color_distance a b =
        Real.sqrt (((a.r : ℝ) - (b.r : ℝ)) ^ 2 + ((a.g : ℝ) - (b.g : ℝ)) ^ 2
          + ((a.b : ℝ) - (b.b : ℝ)) ^ 2) := by
  intro a b
  refine ⟨?_, ?_, ?_⟩
  · unfold calculate_color_distance
    congr 1
    ring
  · rw [calculate_color_distance_eq_sqrt_distSq]
    have hs : (0 : ℝ) ≤ ((distSq a b : ℤ) : ℝ) := by exact_mod_cast distSq_nonneg a b
    rw [Real.sqrt_eq_zero hs]
    constructor
    · intro h0
      have hz : distSq a b = 0 := by exact_mod_cast h0
      obtain ⟨ar, ag, ab⟩ := a
      obtain ⟨br, bg, bb⟩ := b
      unfold distSq at hz
      dsimp only at hz
      have h1 : (br : ℤ) = (ar : ℤ) := by
        nlinarith [sq_nonneg ((br : ℤ) - (ar : ℤ)), sq_nonneg ((bg : ℤ) - (ag : ℤ)),
          sq_nonneg ((bb : ℤ) - (ab : ℤ))]
      have h2 : (bg : ℤ) = (ag : ℤ) := by
        nlinarith [sq_nonneg ((br : ℤ) - (ar : ℤ)), sq_nonneg ((bg : ℤ) - (ag : ℤ)),
          sq_nonneg ((bb : ℤ) - (ab : ℤ))]
      have h3 : (bb : ℤ) = (ab : ℤ) := by
        nlinarith [sq_nonneg ((br : ℤ) - (ar : ℤ)), sq_nonneg ((bg : ℤ) - (ag : ℤ)),
          sq_nonneg ((bb : ℤ) - (ab : ℤ))]
      simp only [Color.mk.injEq]
      refine ⟨?_, ?_, ?_⟩
      · have hv : (ar : ℕ) = (br : ℕ) := by exact_mod_cast h1.symm
        exact Fin.val_inj.mp hv
      · have hv : (ag : ℕ) = (bg : ℕ) := by exact_mod_cast h2.symm
        exact Fin.val_inj.mp hv
      · have hv : (ab : ℕ) = (bb : ℕ) := by exact_mod_cast h3.symm
        exact Fin.val_inj.mp hv
    · intro h
      subst h
      rw [distSq_self]
      norm_num
  · unfold calculate_color_distance
    congr 1
    ring

theorem pixelLE_trans (a b c : Pixel) :
    pixelLE a b = true → pixelLE b c = true → pixelLE a c = true := by
  intro hab hbc
  simp only [pixelLE, decide_eq_true_eq] at *
  exact le_trans hab hbc

theorem pixelLE_total (a b : Pixel) : (pixelLE a b || pixelLE b a) = true := by
  simp only [pixelLE, Bool.or_eq_true, decide_eq_true_eq]
  exact le_total _ _

theorem buildPixels_cells (grid : Grid) (coords : Coords) :
    (buildPixels grid coords).map (fun p => (p.x, p.y)) = allCells := by
  simp only [buildPixels, allCells, List.map_flatMap, List.map_map]
  rfl

/-- C2 (amended): the scheduler orders the 1024 cells by ascending
binary64 luminance key with a stable sort — the output is sorted by
key, is a permutation of the row-major cell list, and cells with
exactly equal double keys keep their original relative (hence
row-major) order — and scheduling is deterministic.  Cells whose exact
luminances are equal but whose double keys differ are ordered by the
keys, not by grid position (see the counterexample
`luminance_tie_broken_by_floats`). -/
theorem scheduler_sort_stable_deterministic :
    ∀ (grid : Grid) (coords : Coords),
      List.Pairwise (fun p q : Pixel => p.luminance ≤ q.luminance)
          (sortPixels (buildPixels grid coords)) ∧
      (sortPixels (buildPixels grid coords)).Perm (buildPixels grid coords) ∧
      (buildPixels grid coords).map (fun p => (p.x, p.y)) = allCells ∧
      (∀ (ps : List Pixel) (a b : Pixel),
          [a, b].Sublist ps → a.luminance = b.luminance →
            [a, b].Sublist (sortPixels ps)) ∧
      schedule grid coords = schedule grid coords := by
  intro grid coords
  refine ⟨?_, List.mergeSort_perm _ pixelLE, buildPixels_cells grid coords, ?_, rfl⟩
  · exact (List.sorted_mergeSort pixelLE_trans pixelLE_total _).imp
      (fun hab => of_decide_eq_true hab)
  · intro ps a b hsub heq
    have hp : List.Pairwise (fun x y => pixelLE x y = true) [a, b] := by
      simp [List.pairwise_cons, pixelLE, heq]
    exact List.sublist_mergeSort pixelLE_trans pixelLE_total hp hsub

/-- Witness for C2 (amended): two pixels with equal double keys in
order stay in order through the sort. -/
theorem scheduler_sort_stable_deterministic_witness :
    [pixel0, { pixel0 with x := 1 }].Sublist [pixel0, { pixel0 with x := 1 }] ∧
      pixel0.luminance = ({ pixel0 with x := 1 } : Pixel).luminance ∧
      [pixel0, { pixel0 with x := 1 }].Sublist
        (sortPixels [pixel0, { pixel0 with x := 1 }]) :=
  ⟨List.Sublist.refl _, rfl,
    (scheduler_sort_stable_deterministic grid0 coords0).2.2.2.1
      [pixel0, { pixel0 with x := 1 }] pixel0 { pixel0 with x := 1 }
      (List.Sublist.refl _) rfl⟩

/-- Anchor: the scaled double of the literal 0.299 is
`5386305154335113 / 2^54` (so times `2^56` it is four times the
53-bit significand). -/
theorem c299s_value : c299s = 5386305154335113 * 4 := by decide

/-- Anchor: the scaled double of the literal 0.587 is
`2643612981266481 / 2^52`. -/
theorem c587s_value : c587s = 2643612981266481 * 16 := by decide

/-- Anchor: the scaled double of the literal 0.114 is
`8214565720323785 / 2^56`. -/
theorem c114s_value : c114s = 8214565720323785 := by decide

theorem mergeSort_pair {α : Type} (le : α → α → Bool) (a b : α) :
    [a, b].mergeSort le = if le a b then [a, b] else [b, a] := by
  cases hab : le a b <;>
    simp [List.mergeSort, List.splitInTwo, List.merge, hab]

theorem tile_center_00 :
    get_tile_position 0 0 coords0 10 10 = (105, 105) := by
  norm_num [get_tile_position, coords0, truncQ]

theorem tile_center_10 :
    get_tile_position 1 0 coords0 10 10 = (115, 105) := by
  norm_num [get_tile_position, coords0, truncQ]

/-- Anchor: the double key of (57, 0, 144) is `588616952860115 / 2^44`
(scaled by `2^56`), the value Python computes for
`0.299*57 + 0.587*0 + 0.114*144`. -/
theorem calculate_luminance_cA :
    calculate_luminance cA = 588616952860115 * 2 ^ 12 := by decide

/-- Anchor: the double key of (0, 57, 0) is `4708935622880919 / 2^47`
(scaled by `2^56`), the value Python computes for
`0.299*0 + 0.587*57 + 0.114*0`; it is strictly below the key of
(57, 0, 144) although the exact luminances are equal. -/
theorem calculate_luminance_cB :
    calculate_luminance cB = 4708935622880919 * 2 ^ 9 := by decide

/-- Counterexample for C2 as stated: the colors (57, 0, 144) and
(0, 57, 0) have exactly equal spec luminance (33.459), but the program
computes its sort key in binary64 doubles, and the two keys round
differently; placed at cells (0, 0) and (1, 0), the sort orders the
pair by the keys and reverses their row-major order, so cells with
exactly equal luminance do not keep their original row-major order. -/
theorem luminance_tie_broken_by_floats :
    luminance_spec cA = luminance_spec cB ∧
      calculate_luminance cB < calculate_luminance cA ∧
      sortPixels [pixelA, pixelB] = [pixelB, pixelA] ∧
      ¬ [pixelA, pixelB].Sublist (sortPixels [pixelA, pixelB]) := by
  have hlt : calculate_luminance cB < calculate_luminance cA := by decide
  have hle : pixelLE pixelA pixelB = false := by
    simp only [pixelLE, pixelA, pixelB, decide_eq_false_iff_not, not_le]
    exact hlt
  have hsort : sortPixels [pixelA, pixelB] = [pixelB, pixelA] := by
    unfold sortPixels
    rw [mergeSort_pair pixelLE pixelA pixelB, hle]
    simp
  have hspec : luminance_spec cA = luminance_spec cB := by
    have h1 : ((57 : Fin 256) : ℕ) = 57 := rfl
    have h2 : ((144 : Fin 256) : ℕ) = 144 := rfl
    have h3 : ((0 : Fin 256) : ℕ) = 0 := rfl
    simp only [luminance_spec, cA, cB]
    push_cast [h1, h2, h3]
    norm_num
  refine ⟨hspec, hlt, hsort, ?_⟩
  rw [hsort]
  intro hsub
  have heq : [pixelA, pixelB] = [pixelB, pixelA] := hsub.eq_of_length rfl
  have hab : pixelA = pixelB := by injection heq
  exact absurd hab (by decide)

theorem paintSteps_map_pixel (tolerance : ℤ) :
    ∀ (ps : List Pixel) (prev : Option Color),
      (paintSteps tolerance prev ps).map Step.pixel = ps := by
  intro ps
  induction ps with
  | nil => intro prev; rfl
  | cons p rest ih =>
    intro prev
    simp only [paintSteps, List.map_cons]
    exact congrArg _ (ih _)

theorem paintSteps_length (tolerance : ℤ) (ps : List Pixel) (prev : Option Color) :
    (paintSteps tolerance prev ps).length = ps.length := by
  have h := congrArg List.length (paintSteps_map_pixel tolerance ps prev)
  rwa [List.length_map] at h

theorem placeCells_flatMap (steps : List Step) :
    placeCells (steps.flatMap stepActions)
      = steps.map (fun s => (s.pixel.x, s.pixel.y)) := by
  induction steps with
  | nil => rfl
  | cons s rest ih =>
    simp only [List.flatMap_cons, placeCells, List.filterMap_append] at *
    cases hs : s.selected <;> simp [stepActions, hs, ih]

theorem placeCount_flatMap (steps : List Step) :
    placeCount (steps.flatMap stepActions) = steps.length := by
  induction steps with
  | nil => rfl
  | cons s rest ih =>
    simp only [List.flatMap_cons, placeCount, List.filter_append] at *
    cases hs : s.selected <;> simp [stepActions, hs, isPlace, isSelect, ih]

theorem selectCount_flatMap (steps : List Step) :
    selectCount (steps.flatMap stepActions)
      = (steps.filter (fun s => s.selected)).length := by
  induction steps with
  | nil => rfl
  | cons s rest ih =>
    simp only [List.flatMap_cons, selectCount, List.filter_append] at *
    cases hs : s.selected <;> simp [stepActions, hs, isPlace, isSelect, ih]

theorem allCells_nodup : allCells.Nodup := by
  unfold allCells
  refine List.nodup_flatMap.mpr ⟨?_, ?_⟩
  · intro y _
    refine List.Nodup.map ?_ (List.nodup_range 32)
    intro x1 x2 hx
    exact congrArg Prod.fst hx
  · refine List.Pairwise.imp ?_ (List.nodup_range 32)
    intro y1 y2 hne
    simp only [Function.onFun]
    intro p hp1 hp2
    simp only [List.mem_map] at hp1 hp2
    obtain ⟨x1, _, h1⟩ := hp1
    obtain ⟨x2, _, h2⟩ := hp2
    apply hne
    have hsnd : (x1, y1).2 = (x2, y2).2 := by rw [h1, h2]
    simpa using hsnd

theorem allCells_length : allCells.length = 1024 := by
  unfold allCells
  simp only [List.length_flatMap, Function.comp_def, List.length_map,
    List.length_range, List.map_const', List.sum_replicate, smul_eq_mul]

theorem buildPixels_length (grid : Grid) (coords : Coords) :
    (buildPixels grid coords).length = 1024 := by
  have h := congrArg List.length (buildPixels_cells grid coords)
  rw [List.length_map] at h
  exact h.trans allCells_length

theorem sortPixels_length (ps : List Pixel) :
    (sortPixels ps).length = ps.length :=
  List.length_mergeSort ps

theorem paintSteps_none_cons (tolerance : ℤ) (p : Pixel) (rest : List Pixel) :
    paintSteps tolerance none (p :: rest) =
      { pixel := p, selected := true, prevBefore := none,
        prevAfter := some p.hex_color }
        :: paintSteps tolerance (some p.hex_color) rest := rfl

theorem withinTolerance_self (c : Color) (tolerance : ℤ) (htol : 0 ≤ tolerance) :
    withinTolerance c c tolerance = true := by
  unfold withinTolerance
  rw [distSq_self]
  have h2 : (0 : ℤ) ≤ tolerance ^ 2 := sq_nonneg tolerance
  simp [htol, h2]

theorem paintSteps_const_no_select (tolerance : ℤ) (c : Color)
    (htol : 0 ≤ tolerance) :
    ∀ (ps : List Pixel), (∀ p ∈ ps, p.hex_color = c) →
      (paintSteps tolerance (some c) ps).filter (fun s => s.selected) = [] := by
  intro ps
  induction ps with
  | nil => intro _; rfl
  | cons p rest ih =>
    intro hall
    have hpc : p.hex_color = c := hall p (List.mem_cons_self _ _)
    have hw : withinTolerance c p.hex_color tolerance = true := by
      rw [hpc]; exact withinTolerance_self c tolerance htol
    have hn : needsColorChange (some c) p.hex_color tolerance = false := by
      simp [needsColorChange, hw]
    simp only [paintSteps, hn, Bool.false_eq_true, if_false]
    rw [List.filter_cons_of_neg (by simp [hn])]
    exact ih (fun q hq => hall q (List.mem_cons_of_mem p hq))

theorem hex_mem_buildPixels (grid : Grid) (coords : Coords) (p : Pixel) :
    p ∈ buildPixels grid coords → ∃ (y x : Fin 32), p.hex_color = grid y x := by
  intro hp
  simp only [buildPixels, List.mem_flatMap, List.mem_map, List.mem_finRange,
    true_and] at hp
  obtain ⟨y, x, hpx⟩ := hp
  exact ⟨y, x, by rw [← hpx]⟩

/-- C3: every run schedules exactly 1024 `PlaceTile` actions, one per
cell with each cell appearing exactly once; the `SelectColor` count is
between 1 and 1024; a constant-color grid yields exactly one
`SelectColor` for every tolerance at least 0. -/
theorem place_and_select_counts :
    ∀ (grid : Grid) (coords : Coords),
      placeCount (schedule grid coords) = 1024 ∧
      (placeCells (schedule grid coords)).Perm allCells ∧
      allCells.Nodup ∧
      1 ≤ selectCount (schedule grid coords) ∧
      selectCount (schedule grid coords) ≤ 1024 ∧
      (∀ c : Color, (∀ (y x : Fin 32), grid y x = c) → 0 ≤ coords.tolerance →
          selectCount (schedule grid coords) = 1) := by
  intro grid coords
  have hlen : (sortPixels (buildPixels grid coords)).length = 1024 := by
    rw [sortPixels_length, buildPixels_length]
  have hsteps_len : (scheduleSteps grid coords).length = 1024 := by
    rw [scheduleSteps, paintSteps_length, hlen]
  obtain ⟨q, qs, hq⟩ : ∃ q qs, sortPixels (buildPixels grid coords) = q :: qs := by
    cases hs : sortPixels (buildPixels grid coords) with
    | nil => rw [hs] at hlen; simp at hlen
    | cons q qs => exact ⟨q, qs, rfl⟩
  refine ⟨?_, ?_, allCells_nodup, ?_, ?_, ?_⟩
  · rw [schedule, placeCount_flatMap, hsteps_len]
  · rw [schedule, placeCells_flatMap]
    have hmapmap : (scheduleSteps grid coords).map (fun s => (s.pixel.x, s.pixel.y))
        = ((scheduleSteps grid coords).map Step.pixel).map (fun p => (p.x, p.y)) := by
      rw [List.map_map]; rfl
    rw [hmapmap, scheduleSteps, paintSteps_map_pixel]
    have hperm : (sortPixels (buildPixels grid coords)).Perm (buildPixels grid coords) :=
      List.mergeSort_perm _ pixelLE
    have := hperm.map (fun p : Pixel => (p.x, p.y))
    rwa [buildPixels_cells grid coords] at this
  · rw [schedule, selectCount_flatMap, scheduleSteps, hq, paintSteps_none_cons]
    rw [List.filter_cons_of_pos (by simp)]
    simp
  · rw [schedule, selectCount_flatMap]
    exact le_trans (List.length_filter_le _ _) (le_of_eq hsteps_len)
  · intro c hconst htol
    have hall : ∀ p ∈ sortPixels (buildPixels grid coords), p.hex_color = c := by
      intro p hp
      have hmem : p ∈ buildPixels grid coords :=
        (List.mergeSort_perm _ pixelLE).mem_iff.mp hp
      obtain ⟨y, x, hyx⟩ := hex_mem_buildPixels grid coords p hmem
      rw [hyx, hconst]
    have hqc : q.hex_color = c := hall q (hq ▸ List.mem_cons_self _ _)
    rw [schedule, selectCount_flatMap, scheduleSteps, hq, paintSteps_none_cons]
    rw [List.filter_cons_of_pos (by simp)]
    rw [hqc]
    rw [paintSteps_const_no_select coords.tolerance c htol qs
      (fun p hp => hall p (hq ▸ List.mem_cons_of_mem q hp))]
    rfl

/-- Witness for C3: the constant all-black grid at tolerance 30
schedules exactly one color selection. -/
theorem place_and_select_counts_witness :
    (0 : ℤ) ≤ coords0.tolerance ∧ selectCount (schedule grid0 coords0) = 1 :=
  ⟨by decide,
    (place_and_select_counts grid0 coords0).2.2.2.2.2 { r := 0, g := 0, b := 0 }
      (fun _ _ => rfl) (by decide)⟩

theorem paintSteps_chain (tolerance : ℤ) :
    ∀ (ps : List Pixel) (prev : Option Color),
      List.Chain' (fun s t => t.prevBefore = s.prevAfter)
        (paintSteps tolerance prev ps) := by
  intro ps
  induction ps with
  | nil => intro prev; exact List.chain'_nil
  | cons p rest ih =>
    intro prev
    simp only [paintSteps]
    refine List.Chain'.cons' (ih _) ?_
    intro y hy
    cases rest with
    | nil => simp [paintSteps] at hy
    | cons q rest2 =>
      simp only [paintSteps, List.head?_cons, Option.mem_def, Option.some.injEq] at hy
      rw [← hy]

theorem paintSteps_invariant (tolerance : ℤ) (htol : 0 ≤ tolerance) :
    ∀ (ps : List Pixel) (prev : Option Color), ∀ s ∈ paintSteps tolerance prev ps,
      (s.selected = false → s.prevAfter = s.prevBefore) ∧
      (s.selected = true → s.prevAfter = some s.pixel.hex_color) ∧
      ∃ lc, s.prevAfter = some lc ∧
        calculate_color_distance lc s.pixel.hex_color ≤ (tolerance : ℝ) := by
  intro ps
  induction ps with
  | nil => intro prev s hs; simp [paintSteps] at hs
  | cons p rest ih =>
    intro prev s hs
    simp only [paintSteps, List.mem_cons] at hs
    rcases hs with hs | hs
    · subst hs
      cases hn : needsColorChange prev p.hex_color tolerance with
      | true =>
        refine ⟨by simp [hn], by simp [hn], p.hex_color, by simp [hn], ?_⟩
        rw [calculate_color_distance_self]
        exact_mod_cast htol
      | false =>
        cases prev with
        | none => exact absurd hn (by simp [needsColorChange])
        | some pc =>
          have hw : withinTolerance pc p.hex_color tolerance = true := by
            simpa [needsColorChange] using hn
          refine ⟨by simp [hn], by simp [hn], pc, by simp [hn], ?_⟩
          exact (withinTolerance_iff pc p.hex_color tolerance).mp hw
    · exact ih _ s hs

/-- C10: at every placement the distance from the placed cell's color
to the most recently selected color is within the (nonnegative)
tolerance; `previous_color` is updated exactly at the steps that
perform a selection and threads unchanged through the others, so
within-tolerance skips are always measured against the last selected
color. -/
theorem no_drift_invariant :
    ∀ (tolerance : ℤ) (ps : List Pixel), 0 ≤ tolerance →
      List.Chain' (fun s t => t.prevBefore = s.prevAfter)
          (paintSteps tolerance none ps) ∧
      (∀ s ∈ paintSteps tolerance none ps,
          (s.selected = false → s.prevAfter = s.prevBefore) ∧
          (s.selected = true → s.prevAfter = some s.pixel.hex_color) ∧
          ∃ lc, s.prevAfter = some lc ∧
            calculate_color_distance lc s.pixel.hex_color ≤ (tolerance : ℝ)) ∧
      (∀ (grid : Grid) (coords : Coords),
          scheduleSteps grid coords =
            paintSteps coords.tolerance none (sortPixels (buildPixels grid coords))) :=
  fun tolerance ps htol =>
    ⟨paintSteps_chain tolerance ps none,
     paintSteps_invariant tolerance htol ps none,
     fun _ _ => rfl⟩

/-- Witness for C10: the single-pixel trace at tolerance 30 places its
cell within distance 30 of the just-selected color. -/
theorem no_drift_invariant_witness :
    (0 : ℤ) ≤ 30 ∧
      ∃ lc, step0.prevAfter = some lc ∧
        calculate_color_distance lc step0.pixel.hex_color ≤ ((30 : ℤ) : ℝ) := by
  have hmem : step0 ∈ paintSteps 30 none [pixel0] := by
    rw [paintSteps_none_cons]
    exact List.mem_cons_self _ _
  exact ⟨by decide, ((no_drift_invariant 30 [pixel0] (by decide)).2.1 _ hmem).2.2⟩

theorem truncQ_intCast (n : ℤ) : truncQ ((n : ℚ)) = n := by
  unfold truncQ
  split_ifs with h
  · exact Int.floor_intCast n
  · exact Int.ceil_intCast n

theorem truncQ_mono {a b : ℚ} (h : a ≤ b) : truncQ a ≤ truncQ b := by
  unfold truncQ
  split_ifs with ha hb hb
  · exact Int.floor_mono h
  · exact absurd (le_trans ha h) hb
  · have hc : (⌈a⌉ : ℤ) ≤ 0 := Int.ceil_le.mpr (by exact_mod_cast le_of_lt (lt_of_not_ge ha))
    have hf : (0 : ℤ) ≤ ⌊b⌋ := Int.floor_nonneg.mpr hb
    exact le_trans hc hf
  · exact Int.ceil_mono h

/-- C9: the tile position is the truncated tile center
`start + index * tileSize + tileSize / 2` with
`tileSize = (end - start) / 32` per axis, exactly as the spec words it;
it is total on degenerate spans, a zero span giving a constant layout
and a negative span a reversed layout. -/
theorem tile_geometry :
    ∀ (coords : Coords),
      (∀ (x y : ℕ),
          get_tile_position x y coords
              (((coords.end_x : ℚ) - (coords.start_x : ℚ)) / 32)
              (((coords.end_y : ℚ) - (coords.start_y : ℚ)) / 32)
            = tilePosition_spec x y coords) ∧
      (coords.end_x = coords.start_x →
          ∀ (x y : ℕ), (tilePosition_spec x y coords).1 = coords.start_x) ∧
      (coords.end_x < coords.start_x →
          ∀ (y x1 x2 : ℕ), x1 ≤ x2 →
            (tilePosition_spec x2 y coords).1 ≤ (tilePosition_spec x1 y coords).1) := by
  intro coords
  refine ⟨fun x y => rfl, ?_, ?_⟩
  · intro h x y
    unfold tilePosition_spec
    dsimp only
    rw [h]
    have hz : (((coords.start_x : ℚ) - (coords.start_x : ℚ)) / 32) = 0 := by ring
    rw [hz]
    have harg : ((coords.start_x : ℚ) + (x : ℚ) * 0 + 0 / 2) = ((coords.start_x : ℚ)) := by
      ring
    rw [harg, truncQ_intCast]
  · intro h y x1 x2 hx
    unfold tilePosition_spec
    dsimp only
    apply truncQ_mono
    have htw : (((coords.end_x : ℚ) - (coords.start_x : ℚ)) / 32) < 0 := by
      apply div_neg_of_neg_of_pos
      · have hlt : (coords.end_x : ℚ) < (coords.start_x : ℚ) := by exact_mod_cast h
        linarith
      · norm_num
    have hmul : (x2 : ℚ) * (((coords.end_x : ℚ) - (coords.start_x : ℚ)) / 32)
        ≤ (x1 : ℚ) * (((coords.end_x : ℚ) - (coords.start_x : ℚ)) / 32) :=
      mul_le_mul_of_nonpos_right (by exact_mod_cast hx) (le_of_lt htw)
    linarith

/-- Witness for C9: a zero-width span gives a constant horizontal
position and a reversed span a non-increasing one. -/
theorem tile_geometry_witness :
    (tilePosition_spec 5 7 coordsDeg).1 = coordsDeg.start_x ∧
      (tilePosition_spec 9 7 coordsRev).1 ≤ (tilePosition_spec 4 7 coordsRev).1 :=
  ⟨(tile_geometry coordsDeg).2.1 rfl 5 7,
   (tile_geometry coordsRev).2.2 (by decide) 7 4 9 (by norm_num)⟩

theorem runFrom_prefix (tolerance : ℤ) (flags : FlagTrace) :
    ∀ (k : ℕ) (ps : List Pixel) (prev : Option Color) (idx painted : ℕ),
      k ≤ ps.length →
      (∀ i, i < k → flags.abortAtTop (idx + i) = false
          ∧ flags.abortInPause (idx + i) = false) →
      runFrom tolerance flags prev idx painted ps =
        { events := (paintSteps tolerance prev (ps.take k)).flatMap stepEvents
            ++ (runFrom tolerance flags (threadPrev tolerance prev (ps.take k))
                (idx + k) (painted + k) (ps.drop k)).events,
          painted := (runFrom tolerance flags (threadPrev tolerance prev (ps.take k))
              (idx + k) (painted + k) (ps.drop k)).painted } := by
  intro k
  induction k with
  | zero =>
    intro ps prev idx painted _ _
    simp [threadPrev, paintSteps]
  | succ k ih =>
    intro ps prev idx painted hk hflags
    cases ps with
    | nil => simp at hk
    | cons p rest =>
      have h0 := hflags 0 (Nat.succ_pos k)
      rw [Nat.add_zero] at h0
      have hstep : runFrom tolerance flags prev idx painted (p :: rest) =
          { events := (if needsColorChange prev p.hex_color tolerance
                then [RunEvent.selectActions p.hex_color] else [])
              ++ RunEvent.placeAction p.x p.y
                :: (runFrom tolerance flags
                    (if needsColorChange prev p.hex_color tolerance
                      then some p.hex_color else prev)
                    (idx + 1) (painted + 1) rest).events,
            painted := (runFrom tolerance flags
                (if needsColorChange prev p.hex_color tolerance
                  then some p.hex_color else prev)
                (idx + 1) (painted + 1) rest).painted } := by
        rw [runFrom]
        simp [h0.1, h0.2]
      rw [hstep]
      have hk' : k ≤ rest.length := by simpa using Nat.succ_le_succ_iff.mp hk
      have hflags' : ∀ i, i < k → flags.abortAtTop ((idx + 1) + i) = false
          ∧ flags.abortInPause ((idx + 1) + i) = false := by
        intro i hi
        have := hflags (i + 1) (Nat.succ_lt_succ hi)
        rwa [show idx + (i + 1) = (idx + 1) + i by omega] at this
      rw [ih rest (if needsColorChange prev p.hex_color tolerance
            then some p.hex_color else prev) (idx + 1) (painted + 1) hk' hflags']
      simp only [List.take_succ_cons, List.drop_succ_cons, paintSteps, threadPrev,
        stepEvents, List.flatMap_cons]
      rw [show (idx + 1) + k = idx + (k + 1) by omega,
        show (painted + 1) + k = painted + (k + 1) by omega]
      simp [List.append_assoc]

/-- C4 (amended): the engine checks the abort flag once per cell, at
the top of each iteration; an abort observed at the check before cell
`k` stops the run with exactly the first `k` cells' actions performed
(`painted = k`, cell `k` never started) and logs "aborted"; an abort
observed inside the pause-wait loop stops the run the same way but
skips the "aborted" report. -/
theorem abort_semantics :
    ∀ (grid : Grid) (coords : Coords) (flags : FlagTrace) (k : ℕ),
      k < 1024 →
      (∀ i, i < k → flags.abortAtTop i = false ∧ flags.abortInPause i = false) →
      (flags.abortAtTop k = true →
          run grid coords flags =
            { events := (paintSteps coords.tolerance none
                  ((sortPixels (buildPixels grid coords)).take k)).flatMap stepEvents
                ++ [RunEvent.logAborted],
              painted := k }) ∧
      (flags.abortAtTop k = false → flags.abortInPause k = true →
          run grid coords flags =
            { events := (paintSteps coords.tolerance none
                  ((sortPixels (buildPixels grid coords)).take k)).flatMap stepEvents,
              painted := k }) := by
  intro grid coords flags k hk hflags
  have hlen : (sortPixels (buildPixels grid coords)).length = 1024 := by
    rw [sortPixels_length, buildPixels_length]
  have hkle : k ≤ (sortPixels (buildPixels grid coords)).length := by omega
  have hflags0 : ∀ i, i < k → flags.abortAtTop (0 + i) = false
      ∧ flags.abortInPause (0 + i) = false := by
    intro i hi
    rw [Nat.zero_add]
    exact hflags i hi
  have hpre := runFrom_prefix coords.tolerance flags k
    (sortPixels (buildPixels grid coords)) none 0 0 hkle hflags0
  obtain ⟨q, qs, hq⟩ : ∃ q qs,
      (sortPixels (buildPixels grid coords)).drop k = q :: qs := by
    cases hd : (sortPixels (buildPixels grid coords)).drop k with
    | nil => rw [List.drop_eq_nil_iff] at hd; omega
    | cons q qs => exact ⟨q, qs, rfl⟩
  rw [run] at *
  constructor
  · intro htop
    rw [hpre, hq]
    rw [runFrom]
    simp [htop]
  · intro htop hpause
    rw [hpre, hq]
    rw [runFrom]
    simp [htop, hpause]

/-- Witness for C4: with the abort flag first observed at the check
before cell 10, the run stops with 10 cells painted, the first 10
cells' actions performed, and the "aborted" report logged. -/
theorem abort_semantics_witness :
    run grid0 coords0 flags10 =
      { events := (paintSteps coords0.tolerance none
            ((sortPixels (buildPixels grid0 coords0)).take 10)).flatMap stepEvents
          ++ [RunEvent.logAborted],
        painted := 10 } :=
  (abort_semantics grid0 coords0 flags10 10 (by norm_num)
      (fun i hi => ⟨by simp [flags10]; omega, rfl⟩)).1 (by simp [flags10])

/-- Counterexample for C4 as stated: an abort observed while paused
terminates the run without the "aborted" report ever being made — the
pause-wait abort path of pixel_painter.py lines 532-536 calls
`finish_painting` but never logs "Painting aborted!". -/
theorem abort_report_missing_when_paused :
    run grid0 coords0 flagsPause = { events := [], painted := 0 } ∧
      RunEvent.logAborted ∉ (run grid0 coords0 flagsPause).events := by
  have hlen : (sortPixels (buildPixels grid0 coords0)).length = 1024 := by
    rw [sortPixels_length, buildPixels_length]
  obtain ⟨q, qs, hq⟩ : ∃ q qs,
      sortPixels (buildPixels grid0 coords0) = q :: qs := by
    cases hs : sortPixels (buildPixels grid0 coords0) with
    | nil => rw [hs] at hlen; simp at hlen
    | cons q qs => exact ⟨q, qs, rfl⟩
  have h1 : run grid0 coords0 flagsPause = { events := [], painted := 0 } := by
    rw [run, hq, runFrom]
    simp [flagsPause]
  exact ⟨h1, by rw [h1]; simp⟩

/-- C5 (amended): `get_coords` succeeds, and the run starts, exactly
when an image is loaded and all eleven fields parse as numbers; no
range is checked — out-of-range numeric speed, delay, or tolerance is
accepted. -/
theorem config_validation_parse_only :
    ∀ (inputs : CoordInputs) (imageLoaded : Bool),
      start_painting_launches imageLoaded inputs =
        (imageLoaded && ((python_int inputs.start_x).isSome
          && (python_int inputs.start_y).isSome
          && (python_int inputs.end_x).isSome
          && (python_int inputs.end_y).isSome
          && (python_int inputs.button_x).isSome
          && (python_int inputs.button_y).isSome
          && (python_int inputs.hex_x).isSome
          && (python_int inputs.hex_y).isSome
          && (python_int inputs.mouse_speed).isSome
          && (python_float inputs.action_delay).isSome
          && (python_int inputs.color_tolerance).isSome)) := by
  intro inputs imageLoaded
  unfold start_painting_launches
  congr 1
  unfold get_coords
  cases h1 : python_int inputs.start_x with
  | none => simp [h1]
  | some v1 =>
  cases h2 : python_int inputs.start_y with
  | none => simp [h1, h2]
  | some v2 =>
  cases h3 : python_int inputs.end_x with
  | none => simp [h1, h2, h3]
  | some v3 =>
  cases h4 : python_int inputs.end_y with
  | none => simp [h1, h2, h3, h4]
  | some v4 =>
  cases h5 : python_int inputs.button_x with
  | none => simp [h1, h2, h3, h4, h5]
  | some v5 =>
  cases h6 : python_int inputs.button_y with
  | none => simp [h1, h2, h3, h4, h5, h6]
  | some v6 =>
  cases h7 : python_int inputs.hex_x with
  | none => simp [h1, h2, h3, h4, h5, h6, h7]
  | some v7 =>
  cases h8 : python_int inputs.hex_y with
  | none => simp [h1, h2, h3, h4, h5, h6, h7, h8]
  | some v8 =>
  cases h9 : python_int inputs.mouse_speed with
  | none => simp [h1, h2, h3, h4, h5, h6, h7, h8, h9]
  | some v9 =>
  cases h10 : python_float inputs.action_delay with
  | none => simp [h1, h2, h3, h4, h5, h6, h7, h8, h9, h10]
  | some v10 =>
  cases h11 : python_int inputs.color_tolerance with
  | none => simp [h1, h2, h3, h4, h5, h6, h7, h8, h9, h10, h11]
  | some v11 => simp [h1, h2, h3, h4, h5, h6, h7, h8, h9, h10, h11]

/-- Counterexample for C5 as stated: all-numeric but out-of-range
inputs (speed 0, delay -1, tolerance -5) are accepted by `get_coords`
and the run starts. -/
theorem out_of_range_config_accepted :
    get_coords inputsBad = some coordsBadParsed ∧
      start_painting_launches true inputsBad = true ∧
      ¬ (1 ≤ coordsBadParsed.speed) ∧ ¬ (0 ≤ coordsBadParsed.delay) ∧
      ¬ (0 ≤ coordsBadParsed.tolerance) := by
  refine ⟨by decide, by decide, by decide, ?_, by decide⟩
  show ¬ ((0 : ℚ) ≤ -1)
  norm_num

/-- Counterexample for C6 as stated: the tolerance field is parsed
with `int(...)`, so the value 441.67 raises `ValueError` and is never
an accepted tolerance — `get_coords` fails and no run starts. -/
theorem tolerance_441_67_rejected :
    python_int "441.67" = none ∧ get_coords inputs441 = none ∧
      start_painting_launches true inputs441 = false := by
  refine ⟨rfl, rfl, rfl⟩

theorem distSq_le_max (a b : Color) : distSq a b ≤ 195075 := by
  have hb : ∀ v : Fin 256, (0 : ℤ) ≤ (v : ℤ) ∧ (v : ℤ) ≤ 255 := fun v =>
    ⟨by positivity, by exact_mod_cast Nat.lt_succ_iff.mp v.isLt⟩
  obtain ⟨har0, har1⟩ := hb a.r
  obtain ⟨hag0, hag1⟩ := hb a.g
  obtain ⟨hab0, hab1⟩ := hb a.b
  obtain ⟨hbr0, hbr1⟩ := hb b.r
  obtain ⟨hbg0, hbg1⟩ := hb b.g
  obtain ⟨hbb0, hbb1⟩ := hb b.b
  have h1 : ((b.r : ℤ) - (a.r : ℤ)) ^ 2 ≤ 255 ^ 2 := sq_le_sq' (by omega) (by omega)
  have h2 : ((b.g : ℤ) - (a.g : ℤ)) ^ 2 ≤ 255 ^ 2 := sq_le_sq' (by omega) (by omega)
  have h3 : ((b.b : ℤ) - (a.b : ℤ)) ^ 2 ≤ 255 ^ 2 := sq_le_sq' (by omega) (by omega)
  unfold distSq
  nlinarith

theorem withinTolerance_of_max (tolerance : ℤ) (h : 442 ≤ tolerance)
    (a b : Color) : withinTolerance a b tolerance = true := by
  have h0 : (0 : ℤ) ≤ tolerance := by omega
  have hsq : distSq a b ≤ tolerance ^ 2 := by
    have hd := distSq_le_max a b
    nlinarith
  simp [withinTolerance, h0, hsq]

theorem paintSteps_no_select_of_all_within (tolerance : ℤ)
    (hall : ∀ a b : Color, withinTolerance a b tolerance = true) :
    ∀ (ps : List Pixel) (pc : Color),
      (paintSteps tolerance (some pc) ps).filter (fun s => s.selected) = [] := by
  intro ps
  induction ps with
  | nil => intro pc; rfl
  | cons p rest ih =>
    intro pc
    have hn : needsColorChange (some pc) p.hex_color tolerance = false := by
      simp [needsColorChange, hall pc p.hex_color]
    simp only [paintSteps, hn, Bool.false_eq_true, if_false]
    rw [List.filter_cons_of_neg (by simp [hn])]
    exact ih _

theorem sorted_pixels_cons (grid : Grid) (coords : Coords) :
    ∃ q qs, sortPixels (buildPixels grid coords) = q :: qs := by
  have hlen : (sortPixels (buildPixels grid coords)).length = 1024 := by
    rw [sortPixels_length, buildPixels_length]
  cases hs : sortPixels (buildPixels grid coords) with
  | nil => rw [hs] at hlen; simp at hlen
  | cons q qs => exact ⟨q, qs, rfl⟩

/-- C6 (amended): for every accepted integer tolerance at least 442
(the least integer at least the maximum RGB distance 441.67...), every
run performs exactly one `SelectColor`, for the first cell only. -/
theorem max_tolerance_single_select :
    ∀ (grid : Grid) (coords : Coords), 442 ≤ coords.tolerance →
      selectCount (schedule grid coords) = 1 := by
  intro grid coords htol
  obtain ⟨q, qs, hq⟩ := sorted_pixels_cons grid coords
  rw [schedule, selectCount_flatMap, scheduleSteps, hq, paintSteps_none_cons]
  rw [List.filter_cons_of_pos (by simp)]
  rw [paintSteps_no_select_of_all_within coords.tolerance
    (withinTolerance_of_max coords.tolerance htol) qs q.hex_color]
  rfl

/-- Witness for C6 (amended): at tolerance 442 the constant grid run
performs exactly one selection. -/
theorem max_tolerance_single_select_witness :
    (442 : ℤ) ≤ coords442.tolerance ∧
      selectCount (schedule grid0 coords442) = 1 :=
  ⟨by decide, max_tolerance_single_select grid0 coords442 (by decide)⟩

/-- C7: every exception raised during action execution is caught and
logged inside `painting_loop`; nothing is re-raised, and the UI is
always reset to the idle startable state by the `finally` clause, so
the host process does not crash. -/
theorem exceptions_contained :
    ∀ (bodyEvents : List RunEvent) (bodyErr : Option String),
      (painting_loop_guarded bodyEvents bodyErr).2.2 = none ∧
      (painting_loop_guarded bodyEvents bodyErr).2.1 = finish_painting_ui ∧
      (painting_loop_guarded bodyEvents bodyErr).2.1.is_painting = false ∧
      (painting_loop_guarded bodyEvents bodyErr).2.1.start_enabled = true ∧
      (∀ e, bodyErr = some e →
          RunEvent.logError e ∈ (painting_loop_guarded bodyEvents bodyErr).1) := by
  intro bodyEvents bodyErr
  cases bodyErr with
  | none =>
    refine ⟨rfl, rfl, rfl, rfl, ?_⟩
    intro e he
    exact absurd he (by simp)
  | some err =>
    refine ⟨rfl, rfl, rfl, rfl, ?_⟩
    intro e he
    have hee : err = e := by injection he
    subst hee
    simp [painting_loop_guarded]

/-- Witness for C7: a failing body is caught, logged, and nothing
propagates. -/
theorem exceptions_contained_witness :
    (painting_loop_guarded [] (some "autoit error")).2.2 = none ∧
      RunEvent.logError "autoit error" ∈ (painting_loop_guarded [] (some "autoit error")).1 :=
  ⟨(exceptions_contained [] (some "autoit error")).1,
   (exceptions_contained [] (some "autoit error")).2.2.2.2 _ rfl⟩

end PixelPainter
